import Mathlib

/-!
Verification development for the headline-vibes service core: the token budget
governor (src/services/tokenBudget.ts), the request budget manager and analysis
pipeline (src/services/budgetManager.ts), the relevance filter
(src/services/relevance.ts), the source categorizer
(src/services/categorization.ts, src/constants/sources.ts), the scoring engine
(src/services/scoring.ts) and the shared normalization utilities
(src/utils/normalize.ts). JavaScript numbers are modelled as rationals, JS
strings as lists of characters, thrown exceptions as Except values, and the
mutable month-to-date ledger as explicit state passing. All theorems below
speak about a single accounting month: ensureMonth is the identity while the
wall-clock month key is unchanged, which is the setting of every claim.
-/

namespace HeadlineVibes

/-- Characters of a JS string. -/
abbrev Text := List Char

/-! ## Token budget governor (src/services/tokenBudget.ts) -/

/-- Status values of the budget decision. -/
inductive BudgetStatus where
  | allowed
  | throttled
  | blocked
deriving DecidableEq, Repr

/-- State of the TokenBudget class: static config fields read from getConfig
    (defaults monthlyTokens = 50000, softCapPct = 80, hardCapPct = 95,
    allowOverage = false) plus the month-to-date ledger mtdTokens. -/
structure TokenBudgetState where
  monthlyTokens : ℚ
  softCapPct : ℚ
  hardCapPct : ℚ
  allowOverage : Bool
  mtdTokens : ℚ
deriving DecidableEq, Repr

/-- Result record returned by checkAndRecord (interface TokenCheckResult). -/
structure TokenCheckResult where
  allowed : Bool
  status : BudgetStatus
  mtdTokens : ℚ
  monthlyTokens : ℚ
  softCapPct : ℚ
  hardCapPct : ℚ
deriving DecidableEq, Repr

/-- TokenBudget.checkAndRecord: threshold gates plus tentative reservation.
    The optional per-call override opts.allowOverage is an Option Bool; the
    effective permission is opts?.allowOverage ?? this.allowOverage. Returns
    the updated state together with the TokenCheckResult. -/
def checkAndRecord (st : TokenBudgetState) (estimate : ℚ) (optsAllowOverage : Option Bool) :
    TokenBudgetState × TokenCheckResult :=
  let monthlyTokens := st.monthlyTokens
  let softCap := (st.softCapPct / 100) * monthlyTokens
  let hardCap := (st.hardCapPct / 100) * monthlyTokens
  let projected := st.mtdTokens + estimate
  let permitOverage := optsAllowOverage.getD st.allowOverage
  let sa : BudgetStatus × Bool :=
    if hardCap < projected then
      if permitOverage = false ∧ monthlyTokens < projected then (.blocked, false)
      else (.throttled, true)
    else if softCap < projected then (.throttled, true)
    else (.allowed, true)
  let newMtd := if sa.2 = true then st.mtdTokens + estimate else st.mtdTokens
  ({ st with mtdTokens := newMtd },
   { allowed := sa.2, status := sa.1, mtdTokens := newMtd,
     monthlyTokens := monthlyTokens, softCapPct := st.softCapPct,
     hardCapPct := st.hardCapPct })

/-- TokenBudget.recordActual: reconcile the estimate drift, flooring at 0. -/
def recordActual (st : TokenBudgetState) (actual previouslyEstimated : ℚ) : TokenBudgetState :=
  let delta := actual - previouslyEstimated
  { st with mtdTokens := max 0 (st.mtdTokens + delta) }

/-- A sequence of checkAndRecord calls (estimate, per-call override), threaded
    through the ledger state in order. -/
def runChecks (st : TokenBudgetState) (calls : List (ℚ × Option Bool)) : TokenBudgetState :=
  calls.foldl (fun s c => (checkAndRecord s c.1 c.2).1) st

/-! ## Cost estimation (src/services/tokenBudget.ts, estimateArticleSearch) -/

/-- A calendar date at UTC midnight, standing for the JS Date parsed from a
    YYYY-MM-DD string with suffix T00:00:00Z. -/
structure CivilDate where
  year : ℤ
  month : ℤ
  day : ℤ
deriving DecidableEq, Repr

/-- Days since the Unix epoch of a proleptic-Gregorian civil date; this is the
    integer underlying Date.getTime for a UTC midnight. -/
def daysFromCivil (date : CivilDate) : ℤ :=
  let y := if date.month ≤ 2 then date.year - 1 else date.year
  let era := Int.fdiv y 400
  let yoe := y - era * 400
  let mp := if date.month ≤ 2 then date.month + 9 else date.month - 3
  let doy := (153 * mp + 2) / 5 + date.day - 1
  let doe := yoe * 365 + yoe / 4 - yoe / 100 + doy
  era * 146097 + doe - 719468

/-- Date.getTime in milliseconds for a UTC midnight date. -/
def getTime (d : CivilDate) : ℚ :=
  86400000 * (daysFromCivil d : ℚ)

/-- Milliseconds in a day (the msInDay constant). -/
def msInDay : ℚ := 86400000

/-- TokenBudget.countDistinctYears. -/
def countDistinctYears (startD endD : CivilDate) : ℤ :=
  max 1 (endD.year - startD.year + 1)

/-- TokenBudget.estimateArticleSearch. The wall clock now is a time in
    milliseconds; startDate and endDate are the parsed date strings. -/
def estimateArticleSearch (now : ℚ) (startDate endDate : CivilDate) (pagesPlanned : ℤ) : ℤ :=
  if pagesPlanned ≤ 0 then 0
  else
    let daysFromNow : ℤ := Rat.floor ((now - getTime endDate) / msInDay)
    let isRecent := daysFromNow ≤ 30 ∧ (now - getTime startDate) / msInDay ≤ 30
    let perSearchTokens := if isRecent then 1 else 5 * countDistinctYears startDate endDate
    perSearchTokens * pagesPlanned

/-! ## Normalization utilities (src/utils/normalize.ts) -/

/-- normalizeHeadline: lowercase plus trim. Char.toLower lowers the ASCII
    range, which covers the lexicon terms; trim drops whitespace on both ends. -/
def normalizeHeadline (text : Text) : Text :=
  ((((text.map Char.toLower).dropWhile Char.isWhitespace).reverse).dropWhile
    Char.isWhitespace).reverse

/-- Prefix test on character lists, used to implement the JS substring test. -/
def beginsWith : Text → Text → Bool
  | [], _ => true
  | _ :: _, [] => false
  | a :: as, b :: bs => a == b && beginsWith as bs

/-- JS String.prototype.includes: containsSub term text is true when term
    occurs contiguously inside text. -/
def containsSub (term : Text) : Text → Bool
  | [] => term.isEmpty
  | c :: rest => beginsWith term (c :: rest) || containsSub term rest

/-- ASCII lowercase letter or digit, the character class kept by toKebabId
    after lowering. -/
def isAsciiLowerAlnum (c : Char) : Bool :=
  ('a' ≤ c && c ≤ 'z') || ('0' ≤ c && c ≤ '9')

/-- Replace every character outside [a-z0-9] by a dash. -/
def kebabMark (l : Text) : Text :=
  l.map (fun c => if isAsciiLowerAlnum c then c else '-')

/-- Collapse consecutive dashes into one. -/
def squeezeDashes : Text → Text
  | [] => []
  | [c] => [c]
  | c :: d :: rest =>
    if c = '-' ∧ d = '-' then squeezeDashes (d :: rest)
    else c :: squeezeDashes (d :: rest)

/-- Drop dashes from both ends. -/
def trimDashes (l : Text) : Text :=
  ((l.dropWhile (fun c => c = '-')).reverse.dropWhile (fun c => c = '-')).reverse

/-- toKebabId (src/utils/normalize.ts): empty for a missing or empty input,
    else lowercase, drop apostrophes (U+0027 and U+2019), convert each run of
    characters outside [a-z0-9] to a single dash and trim dashes. The chained
    JS replace calls (runs to dashes, trim, collapse) are modelled by marking
    every non-alphanumeric character, squeezing duplicate dashes and trimming,
    which produces the same string. -/
def toKebabId (input : Option Text) : Text :=
  match input with
  | none => []
  | some s =>
    if s = [] then []
    else
      let lowered := s.map Char.toLower
      let noApos := lowered.filter (fun c => c ≠ Char.ofNat 39 ∧ c ≠ Char.ofNat 8217)
      trimDashes (squeezeDashes (kebabMark noApos))

/-- Range record used by normalizeRange. -/
structure RangeSpec where
  min : ℚ
  max : ℚ
deriving DecidableEq, Repr

/-- clamp (src/utils/normalize.ts): Math.max(min, Math.min(max, value)). The
    NaN guard of the source has no counterpart on rationals. -/
def clamp (value minV maxV : ℚ) : ℚ :=
  max minV (min maxV value)

/-- normalizeRange (src/utils/normalize.ts). -/
def normalizeRange (value : ℚ) (inp outp : RangeSpec) : ℚ :=
  let spanIn := inp.max - inp.min
  if spanIn = 0 then outp.min
  else
    let spanOut := outp.max - outp.min
    let norm := ((value - inp.min) / spanIn) * spanOut + outp.min
    clamp norm outp.min outp.max

/-- round2 (src/utils/normalize.ts): Math.round(n * 100) / 100, where JS
    Math.round rounds half toward positive infinity. -/
def round2 (n : ℚ) : ℚ :=
  (Rat.floor (n * 100 + 1 / 2) : ℚ) / 100

/-! ## Relevance filter (src/services/relevance.ts) -/

/-- Result record of evaluateHeadlineRelevance. -/
structure RelevanceAssessment where
  relevant : Bool
  score : ℤ
  matchedTerms : List Text
  excludedTerm : Option Text
deriving DecidableEq, Repr

/-- evaluateHeadlineRelevance, parameterised by the INVESTOR_RELEVANCE lexicon
    it imports from src/constants/relevance.ts: exclusion is the exclusion term
    list and inclusion the term-to-weight entries in object key order. The
    first matching exclusion term short-circuits; otherwise the inclusion scan
    accumulates the weight and the term of every substring match, exactly as
    the two source loops do. -/
def evaluateHeadlineRelevance (exclusion : List Text) (inclusion : List (Text × ℤ))
    (headline : Text) : RelevanceAssessment :=
  let normalized := normalizeHeadline headline
  match exclusion.find? (fun e => containsSub e normalized) with
  | some e => { relevant := false, score := 0, matchedTerms := [], excludedTerm := some e }
  | none =>
    let matched := inclusion.filter (fun p => containsSub p.1 normalized)
    { relevant := decide (0 < (matched.map Prod.snd).sum),
      score := (matched.map Prod.snd).sum,
      matchedTerms := matched.map Prod.fst,
      excludedTerm := none }

/-! ## Source categorizer (src/constants/sources.ts, src/services/categorization.ts) -/

/-- Political leaning buckets. -/
inductive PoliticalLeaning where
  | left
  | center
  | right
deriving DecidableEq, Repr

/-- SOURCE_CATEGORIZATION.left (src/constants/sources.ts). -/
def SOURCE_CATEGORIZATION_left : List Text :=
  ["the-washington-post".data, "cnn".data, "nbc-news".data, "abc-news".data,
   "cbs-news".data, "time".data, "business-insider".data, "politico".data,
   "vice-news".data, "huffpost".data, "vox".data, "the-atlantic".data,
   "mother-jones".data]

/-- SOURCE_CATEGORIZATION.right (src/constants/sources.ts). -/
def SOURCE_CATEGORIZATION_right : List Text :=
  ["fox-news".data, "fox-business".data, "the-hill".data, "national-review".data,
   "washington-examiner".data, "newsmax".data, "washington-times".data,
   "breitbart-news".data, "the-american-conservative".data]

/-- leaningForSourceId (src/constants/sources.ts): none models a null or
    undefined argument and the empty list the empty string, both falsy. -/
def leaningForSourceId (id : Option Text) : PoliticalLeaning :=
  match id with
  | none => .center
  | some i =>
    if i = [] then .center
    else if SOURCE_CATEGORIZATION_left.contains i then .left
    else if SOURCE_CATEGORIZATION_right.contains i then .right
    else .center

/-- normalizeSourceId (src/services/categorization.ts). -/
def normalizeSourceId (name : Option Text) : Text :=
  toKebabId name

/-- sourceToLeaning (src/services/categorization.ts): resolve the canonical id
    when present, else the kebab-case name, then look the slug up. -/
def sourceToLeaning (id : Option Text) (name : Option Text) : PoliticalLeaning :=
  leaningForSourceId (some (id.getD (normalizeSourceId name)))

/-! ## Scoring engine (src/services/scoring.ts) -/

/-- The CLICKBAIT phrase list inside scoreAttention. -/
def CLICKBAIT : List Text :=
  ["shocking".data, "you won\x27t believe".data, "must see".data, "breaking".data,
   "surprising".data, "revealed".data, "secret".data, "what happened next".data,
   "unbelievable".data, "jaw-dropping".data]

/-- ASCII uppercase letter, the class [A-Z]. -/
def isAsciiUpper (c : Char) : Bool :=
  'A' ≤ c && c ≤ 'Z'

/-- ASCII letter, the class [A-Za-z]. -/
def isAsciiLetter (c : Char) : Bool :=
  ('A' ≤ c && c ≤ 'Z') || ('a' ≤ c && c ≤ 'z')

/-- The regex test of scoreAttention on one token: strip every character
    outside [A-Za-z], then look for a run of at least five uppercase letters. -/
def hasCapsRun (t : Text) : Bool :=
  let letters := t.filter isAsciiLetter
  letters.tails.any (fun suf => 5 ≤ (suf.takeWhile isAsciiUpper).length)

/-- JS split on the whitespace regex: the string is cut at every maximal
    whitespace run, producing a leading or trailing empty piece when the
    string starts or ends with whitespace, exactly as String.prototype.split
    does. -/
def splitWs : Text → Text → List Text
  | [], cur => [cur.reverse]
  | c :: rest, cur =>
    if c.isWhitespace then
      cur.reverse :: splitWs (rest.dropWhile Char.isWhitespace) []
    else
      splitWs rest (c :: cur)
termination_by l _ => l.length
decreasing_by
  · exact Nat.lt_succ_of_le (List.dropWhile_sublist _).length_le
  · exact Nat.lt_succ_self _

/-- Per-headline accumulation inside scoreAttention: punctuation signals,
    ALL-CAPS tokens and clickbait phrases, clamped to 0..10. -/
def attentionHeadlineScore (h : Text) : ℚ :=
  let text := normalizeHeadline h
  let exclam := text.count '!'
  let quest := text.count '?'
  let tokens := splitWs h []
  let capsTokens := (tokens.filter hasCapsRun).length
  let s : ℚ :=
    ((min 2 exclam : ℕ) : ℚ) * (8 / 10) + ((min 2 quest : ℕ) : ℚ) * (5 / 10)
      + ((min 3 capsTokens : ℕ) : ℚ) * (7 / 10)
  let s2 := CLICKBAIT.foldl (fun acc p => if containsSub p text then acc + 12 / 10 else acc) s
  clamp s2 0 10

/-- scoreAttention (src/services/scoring.ts). -/
def scoreAttention (headlines : List Text) : ℚ :=
  if headlines = [] then 0
  else
    let scores := headlines.map attentionHeadlineScore
    let avg := scores.sum / (scores.length : ℚ)
    round2 (clamp avg 0 10)

/-- INVESTOR_LEXICON (src/services/scoring.ts), in source key order. -/
def INVESTOR_LEXICON : List (Text × ℤ) :=
  [("bull market".data, 2), ("bullish".data, 2), ("record high".data, 2),
   ("outperform".data, 2), ("breakthrough".data, 2), ("innovation".data, 2),
   ("growth".data, 2), ("expansion".data, 2), ("rally".data, 2),
   ("surge".data, 2), ("record profit".data, 2), ("beat expectations".data, 2),
   ("strong demand".data, 2), ("market leader".data, 2),
   ("competitive advantage".data, 2),
   ("investment".data, 1), ("dividend".data, 1), ("profit".data, 1),
   ("earnings".data, 1), ("partnership".data, 1), ("acquisition".data, 1),
   ("opportunity".data, 1), ("recovery".data, 1), ("stability".data, 1),
   ("stable".data, 1), ("guidance".data, 1), ("momentum".data, 1),
   ("bear market".data, -2), ("bearish".data, -2), ("crash".data, -2),
   ("recession".data, -2), ("bankruptcy".data, -2), ("default".data, -2),
   ("crisis".data, -2), ("collapse".data, -2), ("investigation".data, -2),
   ("fraud".data, -2), ("lawsuit".data, -2), ("downgrade".data, -2),
   ("miss expectations".data, -2), ("weak demand".data, -2),
   ("market correction".data, -2),
   ("volatility".data, -1), ("volatile".data, -1), ("uncertainty".data, -1),
   ("uncertain".data, -1), ("risk".data, -1), ("concern".data, -1),
   ("warning".data, -1), ("caution".data, -1), ("slowdown".data, -1),
   ("decline".data, -1), ("loss".data, -1), ("debt".data, -1),
   ("regulatory".data, -1), ("inflation".data, -1)]

/-- scoreInvestor (src/services/scoring.ts). The raw score adds the weight of
    every (headline, matching term) pair and is then averaged over the
    headlines; keyTerms records, for each lexicon term that matched at least
    one headline, the number of headlines containing it (the JS record holds
    the same entries, keyed in first-match order). -/
def scoreInvestor (headlines : List Text) : ℚ × List (Text × ℕ) :=
  if headlines = [] then (5, [])
  else
    let rawTotal : ℤ :=
      (headlines.map (fun h =>
        let t := normalizeHeadline h
        ((INVESTOR_LEXICON.filter (fun p => containsSub p.1 t)).map Prod.snd).sum)).sum
    let raw : ℚ := (rawTotal : ℚ) / (headlines.length : ℚ)
    let keyTerms :=
      (INVESTOR_LEXICON.map (fun p =>
        (p.1, (headlines.filter (fun h => containsSub p.1 (normalizeHeadline h))).length))).filter
        (fun q => q.2 ≠ 0)
    (round2 (normalizeRange raw ⟨-4, 4⟩ ⟨0, 10⟩), keyTerms)

/-- scoreGeneral (src/services/scoring.ts), with the external sentiment
    library abstracted as the comparative function (the spec lists the
    sentiment primitive as an outbound collaborator; the OR-zero coercion of a
    missing comparative is folded into that function). -/
def scoreGeneral (comparative : Text → ℚ) (headlines : List Text) : ℚ :=
  if headlines = [] then 5
  else
    let comps := headlines.map comparative
    let avg := comps.sum / (comps.length : ℚ)
    round2 (normalizeRange avg ⟨-1, 1⟩ ⟨0, 10⟩)

/-- Association-list lookup with OR-zero default, the todayTerms[k] || 0 read
    inside scoreNovelty. -/
def lookupFreq (m : List (Text × ℚ)) (k : Text) : ℚ :=
  (((m.find? (fun p => p.1 == k)).map Prod.snd).getD 0)

/-- scoreNovelty (src/services/scoring.ts); the term maps are association
    lists. A zero total frequency falls back to one, as the OR-one guard of
    the source does. -/
def scoreNovelty (todayTerms baselineTerms : List (Text × ℚ)) : ℚ :=
  let keys := (todayTerms.map Prod.fst ++ baselineTerms.map Prod.fst).dedup
  let sumToday := if (todayTerms.map Prod.snd).sum = 0 then 1 else (todayTerms.map Prod.snd).sum
  let sumBase :=
    if (baselineTerms.map Prod.snd).sum = 0 then 1 else (baselineTerms.map Prod.snd).sum
  let l1 := (keys.map (fun k =>
    |lookupFreq todayTerms k / sumToday - lookupFreq baselineTerms k / sumBase|)).sum
  round2 (normalizeRange l1 ⟨0, 2⟩ ⟨0, 10⟩)

/-- Population variance helper inside scoreVolShock. -/
def popVariance (arr : List ℚ) : ℚ :=
  let m := arr.sum / (arr.length : ℚ)
  (arr.map (fun b => (b - m) * (b - m))).sum / (arr.length : ℚ)

/-- scoreVolShock (src/services/scoring.ts), with Math.sqrt abstracted as the
    sqrtFn parameter (an irrational-valued floating-point primitive); the
    empty-input guard never consults it. -/
def scoreVolShock (sqrtFn : ℚ → ℚ) (today baseline : List ℚ) : ℚ :=
  if today = [] ∨ baseline = [] then 5
  else
    let vToday := popVariance today
    let vBase := popVariance baseline
    let stdProxy := max (1 / 1000000) (sqrtFn |vBase|)
    let z := (vToday - vBase) / stdProxy
    round2 (normalizeRange z ⟨-3, 3⟩ ⟨0, 10⟩)

/-! ## Per-source sampling walk (src/services/budgetManager.ts, analyzeDailyHeadlines) -/

/-- perSourceQuota: floor(maxHeadlines / sources) with minimum one when any
    source has relevant headlines, else maxHeadlines. -/
def perSourceQuota (maxHeadlines numSources : ℕ) : ℕ :=
  if numSources = 0 then maxHeadlines else max 1 (maxHeadlines / numSources)

/-- Inner loop of the sampling walk: push titles from one source while the
    total stays below maxHeadlines and the per-source counter used stays below
    the quota. The outer break of the source is the maxHeadlines guard, which
    also ends every later source with no further pushes. -/
def sampleFromSource (maxHeadlines quota : ℕ) : ℕ → List Text → List Text → List Text
  | _, [], acc => acc
  | used, title :: rest, acc =>
    if maxHeadlines ≤ acc.length then acc
    else if quota ≤ used then acc
    else sampleFromSource maxHeadlines quota (used + 1) rest (acc ++ [title])

/-- Outer loop of the sampling walk over sourcesWithRelevant, accumulating the
    sampledHeadlines list source by source. -/
def sampleSources (maxHeadlines quota : ℕ) : List (List Text) → List Text → List Text
  | [], acc => acc
  | src :: rest, acc =>
    sampleSources maxHeadlines quota rest (sampleFromSource maxHeadlines quota 0 src acc)

/-! ## Monthly analysis (src/services/budgetManager.ts, analyzeMonthlyHeadlines) -/

/-- Article record (src/types.ts). -/
structure Article where
  id : Option String
  sourceName : String
  title : String
  publishedAt : String
  url : Option String
deriving DecidableEq, Repr

/-- Fetch result of the news client (articles, requestCount, pagesFetched). -/
structure FetchResult where
  articles : List Article
  requestCount : ℕ
  pagesFetched : ℕ
deriving DecidableEq, Repr

/-- One month range produced by monthRange: first and last day of a month. -/
structure MonthRange where
  start : CivilDate
  stop : CivilDate
deriving DecidableEq, Repr

/-- The entry stored under a month key in AnalyzeMonthlyResult.months. The
    sentiment summaries of an entry are computed by the scorers above from the
    fetched titles and carry no information about error isolation, so the
    embedding keeps the fields the monthly claims constrain: the date range,
    total_headlines and the optional error string (none when the field is
    absent). -/
structure MonthEntry where
  range : MonthRange
  totalHeadlines : ℕ
  error : Option String
deriving DecidableEq, Repr

/-- The fixed message of a budget-blocked month. -/
def budgetExhaustedMsg : String := "Token budget exhausted before fetch."

/-- The fallback message when a thrown value carries no message property. -/
def unknownErrorMsg : String := "Unknown error while fetching monthly headlines."

/-- analyzeMonthlyHeadlines, month loop. Each iteration estimates tokens for
    the month window, runs checkAndRecord on the shared ledger, emits a
    budget-error entry when blocked, and otherwise fetches: a throw from the
    fetch is an Except.error carrying the optional message property of the
    thrown value and yields an error entry with zero headlines, while a
    successful fetch records actual usage and yields a complete entry. The
    loop always continues with the next month. now is the wall clock in ms and
    pageCap the planned page count of every month. -/
def analyzeMonthly (now : ℚ) (pageCap : ℤ)
    (fetch : MonthRange → Except (Option String) FetchResult) :
    TokenBudgetState → List MonthRange → TokenBudgetState × List MonthEntry
  | st, [] => (st, [])
  | st, r :: rest =>
    let tokenEstimate : ℚ := (estimateArticleSearch now r.start r.stop pageCap : ℤ)
    let checked := checkAndRecord st tokenEstimate none
    if checked.2.allowed = false then
      let tail := analyzeMonthly now pageCap fetch checked.1 rest
      (tail.1, { range := r, totalHeadlines := 0, error := some budgetExhaustedMsg } :: tail.2)
    else
      match fetch r with
      | .ok fr =>
        let reconciled := recordActual checked.1 (fr.requestCount : ℚ) tokenEstimate
        let tail := analyzeMonthly now pageCap fetch reconciled rest
        (tail.1,
         { range := r, totalHeadlines := fr.articles.length, error := none } :: tail.2)
      | .error msg =>
        let tail := analyzeMonthly now pageCap fetch checked.1 rest
        (tail.1,
         { range := r, totalHeadlines := 0,
           error := some (msg.getD unknownErrorMsg) } :: tail.2)

/-- The ledger state after one iteration of the month loop: the tentative
    reservation of checkAndRecord, reconciled by recordActual only when the
    fetch succeeded (a throw skips the reconciliation, a block reserves
    nothing). This is the state the loop hands to the next month. -/
def monthStepState (now : ℚ) (pageCap : ℤ)
    (fetch : MonthRange → Except (Option String) FetchResult)
    (st : TokenBudgetState) (r : MonthRange) : TokenBudgetState :=
  let tokenEstimate : ℚ := (estimateArticleSearch now r.start r.stop pageCap : ℤ)
  let checked := checkAndRecord st tokenEstimate none
  if checked.2.allowed = false then checked.1
  else
    match fetch r with
    | .ok fr => recordActual checked.1 (fr.requestCount : ℚ) tokenEstimate
    | .error _ => checked.1

/-- The entry one iteration of the month loop stores for its month. -/
def monthEntryOf (now : ℚ) (pageCap : ℤ)
    (fetch : MonthRange → Except (Option String) FetchResult)
    (st : TokenBudgetState) (r : MonthRange) : MonthEntry :=
  let tokenEstimate : ℚ := (estimateArticleSearch now r.start r.stop pageCap : ℤ)
  let checked := checkAndRecord st tokenEstimate none
  if checked.2.allowed = false then
    { range := r, totalHeadlines := 0, error := some budgetExhaustedMsg }
  else
    match fetch r with
    | .ok fr => { range := r, totalHeadlines := fr.articles.length, error := none }
    | .error msg => { range := r, totalHeadlines := 0, error := some (msg.getD unknownErrorMsg) }

/-! ## Concrete fixtures used by witnesses -/

/-- The default token budget configuration of getConfig (monthlyTokens 50000,
    softCapPct 80, hardCapPct 95, allowOverage false) with a fresh ledger. -/
def defaultBudget : TokenBudgetState :=
  ⟨50000, 80, 95, false, 0⟩

/-- The three month ranges of 2025-07 .. 2025-09, as monthRange produces
    them. -/
def exampleRanges : List MonthRange :=
  [⟨⟨2025, 7, 1⟩, ⟨2025, 7, 31⟩⟩, ⟨⟨2025, 8, 1⟩, ⟨2025, 8, 31⟩⟩,
   ⟨⟨2025, 9, 1⟩, ⟨2025, 9, 30⟩⟩]

/-- A fetch behaviour where the July request throws an exception whose
    message property is the empty string and every other month succeeds with
    one article over two pages. -/
def exampleFetch (r : MonthRange) : Except (Option String) FetchResult :=
  if r.start.month = 7 then .error (some "")
  else .ok ⟨[⟨none, "Associated Press", "Example headline", "2025-08-01T00:00:00Z", none⟩], 2, 2⟩

/-! ## Theorems -/

/-- The computable rational floor agrees with the floor of the order
    structure. -/
theorem ratFloor_eq (q : ℚ) : Rat.floor q = ⌊q⌋ := by
  rw [Rat.floor_def', Rat.floor_def]

/-- C10: for every date range, estimateArticleSearch returns exactly 0
whenever pagesPlanned is zero or negative, short-circuiting before any
recent or historical classification, so a non-positive page plan is never
charged, even for multi-year historical windows. -/
theorem estimateArticleSearch_nonpositive_pages (now : ℚ) (s e : CivilDate) (p : ℤ)
    (hp : p ≤ 0) : estimateArticleSearch now s e p = 0 := by
  simp [estimateArticleSearch, hp]

/-- Witness for C10 at a zero page plan over a multi-year historical window. -/
theorem estimateArticleSearch_nonpositive_pages_witness :
    (0 : ℤ) ≤ 0 ∧
      estimateArticleSearch (getTime ⟨2025, 10, 11⟩) ⟨2015, 1, 1⟩ ⟨2017, 12, 31⟩ 0 = 0 :=
  ⟨le_refl 0,
   estimateArticleSearch_nonpositive_pages (getTime ⟨2025, 10, 11⟩) ⟨2015, 1, 1⟩
     ⟨2017, 12, 31⟩ 0 (le_refl 0)⟩

/-- Pricing characterization of estimateArticleSearch, shared by several
    concrete computations below. -/
theorem estimate_pricing_aux (now : ℚ) (s e : CivilDate) (p : ℤ)
    (hp : 0 < p) (hse : getTime s ≤ getTime e) :
    estimateArticleSearch now s e p =
      if (now - getTime s) / msInDay ≤ 30 ∧ (now - getTime e) / msInDay ≤ 30 then p
      else 5 * max 1 (e.year - s.year + 1) * p := by
  have hms : (0 : ℚ) < msInDay := by norm_num [msInDay]
  have hnp : ¬ p ≤ 0 := not_le.mpr hp
  have hmono : (now - getTime e) / msInDay ≤ (now - getTime s) / msInDay :=
    (div_le_div_iff_of_pos_right hms).mpr (by linarith)
  by_cases hs : (now - getTime s) / msInDay ≤ 30
  · have he : (now - getTime e) / msInDay ≤ 30 := le_trans hmono hs
    have hfl : Rat.floor ((now - getTime e) / msInDay) ≤ 30 := by
      rw [ratFloor_eq]
      have h1 : ((⌊(now - getTime e) / msInDay⌋ : ℤ) : ℚ) ≤ 30 :=
        le_trans (Int.floor_le _) he
      exact_mod_cast h1
    rw [if_pos ⟨hs, he⟩]
    simp only [estimateArticleSearch, if_neg hnp]
    rw [if_pos ⟨hfl, hs⟩]
    exact one_mul p
  · rw [if_neg (fun h => hs h.1)]
    simp only [estimateArticleSearch, if_neg hnp]
    rw [if_neg (fun h : _ ∧ _ => hs h.2)]
    simp [countDistinctYears]

/-- C3: for a date window with start not after end and a positive page plan,
estimateArticleSearch charges 1 times pagesPlanned when both window endpoints
lie within 30 days back from now, and otherwise the unit multiplier 5 times
max(1, yearOf(end) - yearOf(start) + 1) distinct calendar years times
pagesPlanned. The witness shows the 2015-01-01 .. 2017-12-31 window with one
page planned costing 15. -/
theorem estimateArticleSearch_pricing (now : ℚ) (s e : CivilDate) (p : ℤ)
    (hp : 0 < p) (hse : getTime s ≤ getTime e) :
    estimateArticleSearch now s e p =
      if (now - getTime s) / msInDay ≤ 30 ∧ (now - getTime e) / msInDay ≤ 30 then p
      else 5 * max 1 (e.year - s.year + 1) * p :=
  estimate_pricing_aux now s e p hp hse

/-- Witness for C3: the historical window 2015-01-01 .. 2017-12-31 seen from
2025-10-11 with one page planned is charged 5 x 3 x 1 = 15 tokens. -/
theorem estimateArticleSearch_pricing_witness :
    ((0 : ℤ) < 1 ∧ getTime ⟨2015, 1, 1⟩ ≤ getTime ⟨2017, 12, 31⟩) ∧
      estimateArticleSearch (getTime ⟨2025, 10, 11⟩) ⟨2015, 1, 1⟩ ⟨2017, 12, 31⟩ 1 = 15 := by
  have hd1 : daysFromCivil ⟨2015, 1, 1⟩ = 16436 := by decide
  have hd2 : daysFromCivil ⟨2017, 12, 31⟩ = 17531 := by decide
  have hd3 : daysFromCivil ⟨2025, 10, 11⟩ = 20372 := by decide
  have hse : getTime (⟨2015, 1, 1⟩ : CivilDate) ≤ getTime ⟨2017, 12, 31⟩ := by
    rw [getTime, getTime, hd1, hd2]
    norm_num
  refine ⟨⟨by norm_num, hse⟩, ?_⟩
  rw [estimateArticleSearch_pricing _ _ _ _ (by norm_num) hse]
  rw [getTime, getTime, getTime, hd1, hd2, hd3]
  norm_num [msInDay]

/-- C8: recordActual sets the month-to-date ledger to
max(0, mtd + (actual - previouslyEstimated)): the delta between actual and
estimated usage is applied to MTD, floored at zero. -/
theorem recordActual_reconciles (st : TokenBudgetState) (actual previouslyEstimated : ℚ) :
    (recordActual st actual previouslyEstimated).mtdTokens =
      max 0 (st.mtdTokens + (actual - previouslyEstimated)) := rfl

/-- Step bound: one checkAndRecord call without any overage permission keeps a
    ledger that is within the monthly allowance within it, provided the hard
    cap percentage is at most 100 and the allowance is nonnegative. -/
theorem checkAndRecord_mtd_le (st : TokenBudgetState) (e : ℚ) (o : Option Bool)
    (hm : 0 ≤ st.monthlyTokens) (hh : st.hardCapPct ≤ 100)
    (hov : st.allowOverage = false) (ho : o ≠ some true)
    (hmtd : st.mtdTokens ≤ st.monthlyTokens) :
    (checkAndRecord st e o).1.mtdTokens ≤ st.monthlyTokens := by
  have hperm : o.getD st.allowOverage = false := by
    cases o with
    | none => exact hov
    | some b =>
      cases b with
      | false => rfl
      | true => exact absurd rfl ho
  simp only [checkAndRecord, hperm]
  by_cases h1 : st.hardCapPct / 100 * st.monthlyTokens < st.mtdTokens + e
  · rw [if_pos h1]
    by_cases h2 : st.monthlyTokens < st.mtdTokens + e
    · rw [if_pos (show True ∧ st.monthlyTokens < st.mtdTokens + e from ⟨trivial, h2⟩)]
      simpa using hmtd
    · rw [if_neg (fun hc : True ∧ _ => h2 hc.2)]
      simpa using not_lt.mp h2
  · rw [if_neg h1]
    have hhard : st.mtdTokens + e ≤ st.hardCapPct / 100 * st.monthlyTokens := not_lt.mp h1
    have hcap : st.hardCapPct / 100 * st.monthlyTokens ≤ st.monthlyTokens := by
      have h100 : st.hardCapPct / 100 ≤ 1 := by linarith [(div_le_one (by norm_num : (0:ℚ) < 100)).mpr hh]
      nlinarith
    by_cases h3 : st.softCapPct / 100 * st.monthlyTokens < st.mtdTokens + e
    · rw [if_pos h3]
      simpa using le_trans hhard hcap
    · rw [if_neg h3]
      simpa using le_trans hhard hcap

/-- Fold bound: a whole sequence of calls without overage permission keeps the
    ledger within the monthly allowance. -/
theorem runChecks_mtd_le :
    ∀ (calls : List (ℚ × Option Bool)) (st : TokenBudgetState),
      0 ≤ st.monthlyTokens → st.hardCapPct ≤ 100 → st.allowOverage = false →
      (∀ c ∈ calls, c.2 ≠ some true) → st.mtdTokens ≤ st.monthlyTokens →
      (runChecks st calls).mtdTokens ≤ st.monthlyTokens := by
  intro calls
  induction calls with
  | nil => intro st _ _ _ _ hmtd; exact hmtd
  | cons c rest ih =>
    intro st hm hh hov hc hmtd
    have hstep := checkAndRecord_mtd_le st c.1 c.2 hm hh hov (hc c (by simp)) hmtd
    exact ih (checkAndRecord st c.1 c.2).1 hm hh hov (fun d hd => hc d (by simp [hd])) hstep

/-- C1: across every sequence of checkAndRecord (checkAndReserve) calls with no
overage permission (static config off and no per-call override turning it on),
a ledger starting within the monthly allowance never exceeds it, for any
configuration with nonnegative allowance and hard cap percentage at most 100
(the defaults are 50000, 95); moreover any call whose result has status
blocked leaves mtdTokens exactly unchanged, unconditionally. -/
theorem tokenBudget_mtd_invariant (st : TokenBudgetState) (calls : List (ℚ × Option Bool))
    (hm : 0 ≤ st.monthlyTokens) (hh : st.hardCapPct ≤ 100)
    (hov : st.allowOverage = false)
    (hcalls : ∀ c ∈ calls, c.2 ≠ some true)
    (hmtd : st.mtdTokens ≤ st.monthlyTokens) :
    (runChecks st calls).mtdTokens ≤ st.monthlyTokens ∧
    ∀ (s : TokenBudgetState) (e : ℚ) (o : Option Bool),
      (checkAndRecord s e o).2.status = .blocked →
      (checkAndRecord s e o).1.mtdTokens = s.mtdTokens := by
  refine ⟨runChecks_mtd_le calls st hm hh hov hcalls hmtd, ?_⟩
  intro s e o hb
  simp only [checkAndRecord] at hb ⊢
  split_ifs at hb ⊢ <;> simp_all

/-- Witness for C1 with the default configuration: reserve 30000 (allowed),
attempt 30000 more (blocked at the hard cap, ledger untouched), then reserve
10000 (allowed); the ledger ends at 40000, within the 50000 allowance. -/
theorem tokenBudget_mtd_invariant_witness :
    ((0 : ℚ) ≤ 50000 ∧ (95 : ℚ) ≤ 100 ∧
        (∀ c ∈ ([(30000, none), (30000, some false), (10000, none)] :
            List (ℚ × Option Bool)), c.2 ≠ some true)) ∧
      (runChecks defaultBudget
          [(30000, none), (30000, some false), (10000, none)]).mtdTokens ≤ 50000 := by
  have h := tokenBudget_mtd_invariant defaultBudget
    [(30000, none), (30000, some false), (10000, none)]
    (by norm_num [defaultBudget]) (by norm_num [defaultBudget]) rfl
    (by decide) (by norm_num [defaultBudget])
  exact ⟨⟨by norm_num, by norm_num, by decide⟩, h.1⟩

/-- C2: full threshold case analysis of checkAndRecord with projected =
mtd + estimate, for any configuration whose soft cap does not exceed its hard
cap: at or below the soft cap the call is allowed and reserves; strictly
between soft and hard cap it is throttled but allowed and reserves; above the
hard cap it is blocked without reservation exactly when overage is not
permitted (per-call override or static config) and projected exceeds the
monthly allowance, and otherwise throttled, allowed and reserving. -/
theorem checkAndRecord_thresholds (st : TokenBudgetState) (estimate : ℚ) (opts : Option Bool)
    (hcaps : st.softCapPct / 100 * st.monthlyTokens ≤ st.hardCapPct / 100 * st.monthlyTokens) :
    (st.mtdTokens + estimate ≤ st.softCapPct / 100 * st.monthlyTokens →
      (checkAndRecord st estimate opts).2.status = .allowed ∧
      (checkAndRecord st estimate opts).2.allowed = true ∧
      (checkAndRecord st estimate opts).1.mtdTokens = st.mtdTokens + estimate) ∧
    (st.softCapPct / 100 * st.monthlyTokens < st.mtdTokens + estimate →
      st.mtdTokens + estimate ≤ st.hardCapPct / 100 * st.monthlyTokens →
      (checkAndRecord st estimate opts).2.status = .throttled ∧
      (checkAndRecord st estimate opts).2.allowed = true ∧
      (checkAndRecord st estimate opts).1.mtdTokens = st.mtdTokens + estimate) ∧
    (st.hardCapPct / 100 * st.monthlyTokens < st.mtdTokens + estimate →
      (((checkAndRecord st estimate opts).2.status = .blocked ∧
          (checkAndRecord st estimate opts).2.allowed = false ∧
          (checkAndRecord st estimate opts).1.mtdTokens = st.mtdTokens) ↔
        (opts.getD st.allowOverage = false ∧
          st.monthlyTokens < st.mtdTokens + estimate))) ∧
    (st.hardCapPct / 100 * st.monthlyTokens < st.mtdTokens + estimate →
      (opts.getD st.allowOverage = true ∨ st.mtdTokens + estimate ≤ st.monthlyTokens) →
      (checkAndRecord st estimate opts).2.status = .throttled ∧
      (checkAndRecord st estimate opts).2.allowed = true ∧
      (checkAndRecord st estimate opts).1.mtdTokens = st.mtdTokens + estimate) := by
  refine ⟨?_, ?_, ?_, ?_⟩
  · intro h1
    simp only [checkAndRecord]
    rw [if_neg (not_lt.mpr (le_trans h1 hcaps)), if_neg (not_lt.mpr h1)]
    exact ⟨rfl, rfl, rfl⟩
  · intro h1 h2
    simp only [checkAndRecord]
    rw [if_neg (not_lt.mpr h2), if_pos h1]
    exact ⟨rfl, rfl, rfl⟩
  · intro h1
    simp only [checkAndRecord]
    rw [if_pos h1]
    by_cases hb : opts.getD st.allowOverage = false ∧
      st.monthlyTokens < st.mtdTokens + estimate
    · rw [if_pos hb]
      exact iff_of_true ⟨rfl, rfl, rfl⟩ hb
    · rw [if_neg hb]
      refine iff_of_false ?_ hb
      rintro ⟨hstatus, -, -⟩
      exact absurd hstatus (by simp)
  · intro h1 hperm
    simp only [checkAndRecord]
    have hb : ¬ (opts.getD st.allowOverage = false ∧
        st.monthlyTokens < st.mtdTokens + estimate) := by
      rintro ⟨hf, hm⟩
      rcases hperm with ht | hle
      · rw [ht] at hf
        exact absurd hf (by simp)
      · linarith
    rw [if_pos h1, if_neg hb]
    exact ⟨rfl, rfl, rfl⟩

/-- Witness for C2 with the default configuration: a 1000-token estimate on a
fresh ledger projects below the 40000 soft cap and is allowed with
reservation. -/
theorem checkAndRecord_thresholds_witness :
    ((80 : ℚ) / 100 * 50000 ≤ (95 : ℚ) / 100 * 50000 ∧
        (0 : ℚ) + 1000 ≤ (80 : ℚ) / 100 * 50000) ∧
      (checkAndRecord defaultBudget 1000 none).2.status = .allowed ∧
      (checkAndRecord defaultBudget 1000 none).2.allowed = true ∧
      (checkAndRecord defaultBudget 1000 none).1.mtdTokens = 0 + 1000 := by
  have h := (checkAndRecord_thresholds defaultBudget 1000 none (by norm_num [defaultBudget])).1
    (by norm_num [defaultBudget])
  exact ⟨⟨by norm_num, by norm_num⟩, h⟩

/-- C7 (amended): on an empty headline list the investor, general-sentiment
and volatility-shock scorers return the neutral midpoint 5 and scoreInvestor
additionally returns an empty key-term record; scoreAttention returns 0 and
scoreNovelty on empty term maps returns 0 (the bottom of the scale, not the
midpoint); all of them are total, so none throws. -/
theorem scorers_empty_input (comparative : Text → ℚ) (sqrtFn : ℚ → ℚ) :
    scoreAttention [] = 0 ∧
    scoreInvestor [] = (5, []) ∧
    scoreGeneral comparative [] = 5 ∧
    scoreNovelty [] [] = 0 ∧
    (∀ baseline, scoreVolShock sqrtFn [] baseline = 5) ∧
    (∀ today, scoreVolShock sqrtFn today [] = 5) := by
  refine ⟨rfl, rfl, rfl, ?_, ?_, ?_⟩
  · simp [scoreNovelty, normalizeRange, clamp, round2, ratFloor_eq]
    norm_num
  · intro baseline
    unfold scoreVolShock
    rw [if_pos (Or.inl rfl)]
  · intro today
    unfold scoreVolShock
    rw [if_pos (Or.inr rfl)]

/-- C6: for every headline and every lexicon, evaluateHeadlineRelevance checks
the exclusion list on the normalized (lowercased, trimmed) text first: any
exclusion substring match forces relevant = false and score = 0 regardless of
the inclusion weights; otherwise the score is the sum of the weights of the
inclusion terms present as substrings (each term counted once by presence),
relevant holds exactly when the score is positive, and every matched inclusion
term is recorded in matchedTerms. -/
theorem evaluateHeadlineRelevance_spec (exclusion : List Text) (inclusion : List (Text × ℤ))
    (headline : Text) :
    (∀ e ∈ exclusion, containsSub e (normalizeHeadline headline) = true →
      (evaluateHeadlineRelevance exclusion inclusion headline).relevant = false ∧
      (evaluateHeadlineRelevance exclusion inclusion headline).score = 0) ∧
    ((∀ e ∈ exclusion, containsSub e (normalizeHeadline headline) = false) →
      (evaluateHeadlineRelevance exclusion inclusion headline).score =
        ((inclusion.filter (fun p => containsSub p.1 (normalizeHeadline headline))).map
          Prod.snd).sum ∧
      ((evaluateHeadlineRelevance exclusion inclusion headline).relevant = true ↔
        0 < (evaluateHeadlineRelevance exclusion inclusion headline).score) ∧
      (evaluateHeadlineRelevance exclusion inclusion headline).matchedTerms =
        (inclusion.filter (fun p => containsSub p.1 (normalizeHeadline headline))).map
          Prod.fst ∧
      (∀ t w, (t, w) ∈ inclusion → containsSub t (normalizeHeadline headline) = true →
        t ∈ (evaluateHeadlineRelevance exclusion inclusion headline).matchedTerms)) := by
  constructor
  · intro e he hce
    cases hfind : exclusion.find? (fun x => containsSub x (normalizeHeadline headline)) with
    | none =>
      have := List.find?_eq_none.mp hfind e he
      simp [hce] at this
    | some x =>
      simp [evaluateHeadlineRelevance, hfind]
  · intro hall
    have hfind : exclusion.find? (fun x => containsSub x (normalizeHeadline headline)) = none :=
      List.find?_eq_none.mpr (fun e he => by simp [hall e he])
    refine ⟨?_, ?_, ?_, ?_⟩
    · simp [evaluateHeadlineRelevance, hfind]
    · simp [evaluateHeadlineRelevance, hfind]
    · simp [evaluateHeadlineRelevance, hfind]
    · intro t w htw hct
      simp only [evaluateHeadlineRelevance, hfind]
      exact List.mem_map.mpr ⟨(t, w), List.mem_filter.mpr ⟨htw, by simpa using hct⟩, rfl⟩

/-- Witness for C6: the excluded headline from the test suite is irrelevant
with score 0, and the inclusion-scored one is relevant with the matched term
recorded. -/
theorem evaluateHeadlineRelevance_spec_witness :
    ("recipe".data ∈ ["recipe".data] ∧
        containsSub "recipe".data
          (normalizeHeadline "Celebrity chef shares viral recipe".data) = true) ∧
      (evaluateHeadlineRelevance ["recipe".data] [("interest rate".data, 2)]
          "Celebrity chef shares viral recipe".data).relevant = false ∧
      (evaluateHeadlineRelevance ["recipe".data] [("interest rate".data, 2)]
          "Celebrity chef shares viral recipe".data).score = 0 := by
  have h := (evaluateHeadlineRelevance_spec ["recipe".data] [("interest rate".data, 2)]
    "Celebrity chef shares viral recipe".data).1 "recipe".data (by decide) (by decide)
  exact ⟨⟨by decide, by decide⟩, h⟩

/-- C9: the categorizer returns left for every id in the static left set,
right for every id in the static right set, center for every other input, and
when the canonical id is missing it resolves the slugified friendly name;
its codomain has no unknown bucket, so every source lands in left, center or
right. -/
theorem sourceToLeaning_buckets :
    (∀ (i : Text) (name : Option Text), i ∈ SOURCE_CATEGORIZATION_left →
      sourceToLeaning (some i) name = .left) ∧
    (∀ (i : Text) (name : Option Text), i ∈ SOURCE_CATEGORIZATION_right →
      sourceToLeaning (some i) name = .right) ∧
    (∀ (i : Text) (name : Option Text), i ∉ SOURCE_CATEGORIZATION_left →
      i ∉ SOURCE_CATEGORIZATION_right → sourceToLeaning (some i) name = .center) ∧
    (∀ name : Option Text,
      sourceToLeaning none name = leaningForSourceId (some (toKebabId name))) ∧
    (∀ (id name : Option Text), sourceToLeaning id name = .left ∨
      sourceToLeaning id name = .center ∨ sourceToLeaning id name = .right) := by
  have hleftNE : ∀ i ∈ SOURCE_CATEGORIZATION_left, i ≠ ([] : Text) := by decide
  have hrightNE : ∀ i ∈ SOURCE_CATEGORIZATION_right, i ≠ ([] : Text) := by decide
  have hdisj : ∀ i ∈ SOURCE_CATEGORIZATION_right, i ∉ SOURCE_CATEGORIZATION_left := by decide
  refine ⟨?_, ?_, ?_, ?_, ?_⟩
  · intro i name hi
    simp [sourceToLeaning, leaningForSourceId, hleftNE i hi, hi]
  · intro i name hi
    simp [sourceToLeaning, leaningForSourceId, hrightNE i hi, hdisj i hi, hi]
  · intro i name hileft hiright
    by_cases hnil : i = []
    · simp [sourceToLeaning, leaningForSourceId, hnil]
    · simp [sourceToLeaning, leaningForSourceId, hnil, hileft, hiright]
  · intro name
    rfl
  · intro id name
    cases h : sourceToLeaning id name with
    | left => exact Or.inl rfl
    | center => exact Or.inr (Or.inl rfl)
    | right => exact Or.inr (Or.inr rfl)

/-- Witness for C9: cnn is left-listed, fox-news is right-listed, an unknown
id falls back to center, and a missing id with the friendly name Fox News
resolves through the slug fox-news to right. -/
theorem sourceToLeaning_buckets_witness :
    ("cnn".data ∈ SOURCE_CATEGORIZATION_left ∧
        sourceToLeaning (some "cnn".data) none = .left) ∧
      ("fox-news".data ∈ SOURCE_CATEGORIZATION_right ∧
        sourceToLeaning (some "fox-news".data) none = .right) ∧
      ("daily-bugle".data ∉ SOURCE_CATEGORIZATION_left ∧
        "daily-bugle".data ∉ SOURCE_CATEGORIZATION_right ∧
        sourceToLeaning (some "daily-bugle".data) none = .center) ∧
      sourceToLeaning none (some "Fox News".data) = .right := by
  refine ⟨⟨by decide, sourceToLeaning_buckets.1 _ none (by decide)⟩,
    ⟨by decide, sourceToLeaning_buckets.2.1 _ none (by decide)⟩,
    ⟨by decide, by decide, sourceToLeaning_buckets.2.2.1 _ none (by decide) (by decide)⟩,
    ?_⟩
  have hk : toKebabId (some "Fox News".data) = "fox-news".data := by decide
  rw [sourceToLeaning_buckets.2.2.2.1 (some "Fox News".data), hk]
  exact sourceToLeaning_buckets.2.1 "fox-news".data none (by decide)

/-- One source never pushes the sampled list beyond maxHeadlines. -/
theorem sampleFromSource_length_le_max (maxH quota : ℕ) :
    ∀ (src : List Text) (used : ℕ) (acc : List Text), acc.length ≤ maxH →
      (sampleFromSource maxH quota used src acc).length ≤ maxH := by
  intro src
  induction src with
  | nil => intro used acc h; exact h
  | cons t rest ih =>
    intro used acc h
    simp only [sampleFromSource]
    split_ifs with h1 h2
    · exact h
    · exact h
    · apply ih
      simp only [List.length_append, List.length_cons, List.length_nil]
      omega

/-- One source contributes at most quota - used further titles. -/
theorem sampleFromSource_contribution (maxH quota : ℕ) :
    ∀ (src : List Text) (used : ℕ) (acc : List Text),
      (sampleFromSource maxH quota used src acc).length ≤ acc.length + (quota - used) := by
  intro src
  induction src with
  | nil => intro used acc; simp [sampleFromSource]
  | cons t rest ih =>
    intro used acc
    simp only [sampleFromSource]
    split_ifs with h1 h2
    · exact Nat.le_add_right _ _
    · exact Nat.le_add_right _ _
    · have := ih (used + 1) (acc ++ [t])
      simp only [List.length_append, List.length_cons, List.length_nil] at this
      omega

/-- The outer walk never pushes the sampled list beyond maxHeadlines. -/
theorem sampleSources_length_le (maxH quota : ℕ) :
    ∀ (srcs : List (List Text)) (acc : List Text), acc.length ≤ maxH →
      (sampleSources maxH quota srcs acc).length ≤ maxH := by
  intro srcs
  induction srcs with
  | nil => intro acc h; exact h
  | cons s rest ih =>
    intro acc h
    exact ih _ (sampleFromSource_length_le_max maxH quota s 0 acc h)

/-- The outer walk distributes over list append. -/
theorem sampleSources_append (maxH quota : ℕ) :
    ∀ (l₁ l₂ : List (List Text)) (acc : List Text),
      sampleSources maxH quota (l₁ ++ l₂) acc =
        sampleSources maxH quota l₂ (sampleSources maxH quota l₁ acc) := by
  intro l₁
  induction l₁ with
  | nil => intro l₂ acc; rfl
  | cons s rest ih =>
    intro l₂ acc
    simp only [List.cons_append, sampleSources]
    exact ih l₂ (sampleFromSource maxH quota 0 s acc)

/-- C4: for every distribution of relevant headlines across sources and every
maxHeadlines, the sampled headline list never exceeds maxHeadlines in total,
and no single source contributes more than the per-source quota
max(1, floor(maxHeadlines / number of sources with relevant headlines)): the
list after walking the first k+1 sources is at most quota longer than after
the first k. -/
theorem sampling_respects_bounds (maxHeadlines : ℕ) (srcs : List (List Text)) :
    (sampleSources maxHeadlines (perSourceQuota maxHeadlines srcs.length) srcs []).length
        ≤ maxHeadlines ∧
    ∀ k, k < srcs.length →
      (sampleSources maxHeadlines (perSourceQuota maxHeadlines srcs.length)
          (srcs.take (k + 1)) []).length ≤
        (sampleSources maxHeadlines (perSourceQuota maxHeadlines srcs.length)
          (srcs.take k) []).length + perSourceQuota maxHeadlines srcs.length := by
  constructor
  · exact sampleSources_length_le _ _ srcs [] (by simp)
  · intro k hk
    have htake : srcs.take (k + 1) = srcs.take k ++ [srcs.get ⟨k, hk⟩] := by
      rw [List.take_succ]
      simp [List.getElem?_eq_getElem hk]
    rw [htake, sampleSources_append]
    simp only [sampleSources]
    calc (sampleFromSource maxHeadlines (perSourceQuota maxHeadlines srcs.length) 0
            (srcs.get ⟨k, hk⟩)
            (sampleSources maxHeadlines (perSourceQuota maxHeadlines srcs.length)
              (srcs.take k) [])).length
        ≤ (sampleSources maxHeadlines (perSourceQuota maxHeadlines srcs.length)
            (srcs.take k) []).length + (perSourceQuota maxHeadlines srcs.length - 0) :=
          sampleFromSource_contribution _ _ _ _ _
      _ ≤ _ := by omega

/-- Witness for C4: three sources with four relevant titles, maxHeadlines 3,
quota max(1, 3 / 3) = 1; the sample holds three titles and the second source
adds at most one. -/
theorem sampling_respects_bounds_witness :
    (sampleSources 3 (perSourceQuota 3 3)
        [["a".data], ["b".data, "c".data], ["d".data]] []).length ≤ 3 ∧
      ((1 : ℕ) < 3 ∧
        (sampleSources 3 (perSourceQuota 3 3)
            ([["a".data], ["b".data, "c".data], ["d".data]].take 2) []).length ≤
          (sampleSources 3 (perSourceQuota 3 3)
              ([["a".data], ["b".data, "c".data], ["d".data]].take 1) []).length +
            perSourceQuota 3 3) := by
  have h := sampling_respects_bounds 3 [["a".data], ["b".data, "c".data], ["d".data]]
  exact ⟨h.1, by norm_num, h.2 1 (by norm_num)⟩

/-- Unrolling of the month loop: processing r then the rest equals the entry
    of r followed by the rest processed from the stepped state. -/
theorem analyzeMonthly_cons (now : ℚ) (pageCap : ℤ)
    (fetch : MonthRange → Except (Option String) FetchResult)
    (st : TokenBudgetState) (r : MonthRange) (rest : List MonthRange) :
    analyzeMonthly now pageCap fetch st (r :: rest) =
      ((analyzeMonthly now pageCap fetch (monthStepState now pageCap fetch st r) rest).1,
        monthEntryOf now pageCap fetch st r ::
          (analyzeMonthly now pageCap fetch (monthStepState now pageCap fetch st r) rest).2) := by
  simp only [analyzeMonthly, monthStepState, monthEntryOf]
  split_ifs with h1
  · rfl
  · cases hf : fetch r with
    | ok fr => rfl
    | error msg => rfl

/-- The month loop yields exactly one entry per month in the range. -/
theorem analyzeMonthly_length (now : ℚ) (pageCap : ℤ)
    (fetch : MonthRange → Except (Option String) FetchResult) :
    ∀ (ranges : List MonthRange) (st : TokenBudgetState),
      ((analyzeMonthly now pageCap fetch st ranges).2).length = ranges.length := by
  intro ranges
  induction ranges with
  | nil => intro st; rfl
  | cons r rest ih =>
    intro st
    rw [analyzeMonthly_cons]
    simp [ih]

/-- Index characterization of the month loop: the i-th entry is fully
    determined by the i-th range and the ledger state reached after the first
    i months. -/
theorem analyzeMonthly_entry_char (now : ℚ) (pageCap : ℤ)
    (fetch : MonthRange → Except (Option String) FetchResult) :
    ∀ (ranges : List MonthRange) (st : TokenBudgetState) (i : ℕ) (r : MonthRange),
      ranges[i]? = some r →
      (analyzeMonthly now pageCap fetch st ranges).2[i]? =
        some (monthEntryOf now pageCap fetch
          (analyzeMonthly now pageCap fetch st (ranges.take i)).1 r) := by
  intro ranges
  induction ranges with
  | nil => intro st i r h; simp at h
  | cons r0 rest ih =>
    intro st i r h
    cases i with
    | zero =>
      simp only [List.getElem?_cons_zero, Option.some.injEq] at h
      subst h
      rw [analyzeMonthly_cons]
      simp [analyzeMonthly]
    | succ n =>
      have h' : rest[n]? = some r := by simpa using h
      rw [List.take_succ_cons, analyzeMonthly_cons, analyzeMonthly_cons]
      simpa using ih (monthStepState now pageCap fetch st r0) n r h'

/-- C5 (amended): the month loop never aborts: every month in the range yields
an entry (the output has one entry per month, carrying that month's date
range). A month whose budget check allows and whose fetch throws yields an
entry with zero total headlines whose error field is set to the thrown error's
message (or a fixed default when the thrown value carries none) — non-empty
except when the thrown message is itself the empty string; a month whose
budget check allows and whose fetch succeeds yields a complete entry: no
error and the fetched article count; a budget-blocked month yields the fixed
budget-exhausted error entry. Later months are processed from the ledger
state the failing month left behind, never skipped. -/
theorem analyzeMonthly_error_isolation (now : ℚ) (pageCap : ℤ)
    (fetch : MonthRange → Except (Option String) FetchResult)
    (st : TokenBudgetState) (ranges : List MonthRange) :
    ((analyzeMonthly now pageCap fetch st ranges).2).length = ranges.length ∧
    ∀ (i : ℕ) (r : MonthRange), ranges[i]? = some r →
      ((checkAndRecord (analyzeMonthly now pageCap fetch st (ranges.take i)).1
          ((estimateArticleSearch now r.start r.stop pageCap : ℤ) : ℚ) none).2.allowed = false →
        (analyzeMonthly now pageCap fetch st ranges).2[i]? =
          some { range := r, totalHeadlines := 0, error := some budgetExhaustedMsg }) ∧
      ((checkAndRecord (analyzeMonthly now pageCap fetch st (ranges.take i)).1
          ((estimateArticleSearch now r.start r.stop pageCap : ℤ) : ℚ) none).2.allowed = true →
        ∀ msg, fetch r = .error msg →
          (analyzeMonthly now pageCap fetch st ranges).2[i]? =
            some { range := r, totalHeadlines := 0,
                   error := some (msg.getD unknownErrorMsg) }) ∧
      ((checkAndRecord (analyzeMonthly now pageCap fetch st (ranges.take i)).1
          ((estimateArticleSearch now r.start r.stop pageCap : ℤ) : ℚ) none).2.allowed = true →
        ∀ fr, fetch r = .ok fr →
          (analyzeMonthly now pageCap fetch st ranges).2[i]? =
            some { range := r, totalHeadlines := fr.articles.length, error := none }) := by
  refine ⟨analyzeMonthly_length now pageCap fetch ranges st, ?_⟩
  intro i r h
  have hchar := analyzeMonthly_entry_char now pageCap fetch ranges st i r h
  refine ⟨?_, ?_, ?_⟩
  · intro hblocked
    rw [hchar]
    simp only [monthEntryOf]
    rw [if_pos hblocked]
  · intro hallowed msg hmsg
    rw [hchar]
    simp only [monthEntryOf]
    rw [if_neg (by simp [hallowed]), hmsg]
  · intro hallowed fr hfr
    rw [hchar]
    simp only [monthEntryOf]
    rw [if_neg (by simp [hallowed]), hfr]

/-- The July window of the fixture is historical and costs 5 x 1 x 2 = 10
    tokens. -/
theorem exampleJulyEstimate :
    estimateArticleSearch (getTime ⟨2025, 10, 11⟩) ⟨2025, 7, 1⟩ ⟨2025, 7, 31⟩ 2 = 10 := by
  have hd1 : daysFromCivil ⟨2025, 7, 1⟩ = 20270 := by decide
  have hd2 : daysFromCivil ⟨2025, 7, 31⟩ = 20300 := by decide
  have hd3 : daysFromCivil ⟨2025, 10, 11⟩ = 20372 := by decide
  have hse : getTime (⟨2025, 7, 1⟩ : CivilDate) ≤ getTime ⟨2025, 7, 31⟩ := by
    rw [getTime, getTime, hd1, hd2]
    norm_num
  rw [estimate_pricing_aux _ _ _ _ (by norm_num) hse]
  rw [getTime, getTime, getTime, hd1, hd2, hd3]
  norm_num [msInDay]

/-- The budget check of the fixture run allows the July month on a fresh
    default ledger. -/
theorem exampleJulyAllowed :
    (checkAndRecord (analyzeMonthly (getTime ⟨2025, 10, 11⟩) 2 exampleFetch defaultBudget
          (exampleRanges.take 0)).1
        ((estimateArticleSearch (getTime ⟨2025, 10, 11⟩) ⟨2025, 7, 1⟩ ⟨2025, 7, 31⟩ 2 : ℤ) : ℚ)
        none).2.allowed = true := by
  rw [exampleJulyEstimate]
  show (checkAndRecord defaultBudget ((10 : ℤ) : ℚ) none).2.allowed = true
  norm_num [checkAndRecord, defaultBudget]

/-- Counterexample for C5 as stated: in the fixture run the July fetch throws
an exception whose message property is the empty string, and the resulting
entry's error field is the empty string, not a non-empty one (its length is
0); the month still records zero headlines. -/
theorem analyzeMonthly_error_isolation_counterexample :
    exampleFetch ⟨⟨2025, 7, 1⟩, ⟨2025, 7, 31⟩⟩ = .error (some "") ∧
      (analyzeMonthly (getTime ⟨2025, 10, 11⟩) 2 exampleFetch defaultBudget
          exampleRanges).2[0]? =
        some { range := ⟨⟨2025, 7, 1⟩, ⟨2025, 7, 31⟩⟩, totalHeadlines := 0,
               error := some "" } ∧
      ("" : String).length = 0 := by
  refine ⟨rfl, ?_, rfl⟩
  rw [analyzeMonthly_entry_char (getTime ⟨2025, 10, 11⟩) 2 exampleFetch exampleRanges
    defaultBudget 0 ⟨⟨2025, 7, 1⟩, ⟨2025, 7, 31⟩⟩ rfl]
  simp only [monthEntryOf]
  rw [if_neg (by rw [exampleJulyAllowed]; simp)]
  rfl

/-- Witness for C5: in the fixture run the range is never aborted (three
entries for three months) and the July month, whose budget check allowed and
whose fetch threw, carries zero headlines and the thrown message as its error
field. -/
theorem analyzeMonthly_error_isolation_witness :
    (exampleRanges[0]? = some ⟨⟨2025, 7, 1⟩, ⟨2025, 7, 31⟩⟩ ∧
        (checkAndRecord (analyzeMonthly (getTime ⟨2025, 10, 11⟩) 2 exampleFetch defaultBudget
              (exampleRanges.take 0)).1
            ((estimateArticleSearch (getTime ⟨2025, 10, 11⟩) ⟨2025, 7, 1⟩ ⟨2025, 7, 31⟩ 2 :
              ℤ) : ℚ) none).2.allowed = true ∧
        exampleFetch ⟨⟨2025, 7, 1⟩, ⟨2025, 7, 31⟩⟩ = .error (some "")) ∧
      (analyzeMonthly (getTime ⟨2025, 10, 11⟩) 2 exampleFetch defaultBudget
          exampleRanges).2.length = 3 ∧
      (analyzeMonthly (getTime ⟨2025, 10, 11⟩) 2 exampleFetch defaultBudget
          exampleRanges).2[0]? =
        some { range := ⟨⟨2025, 7, 1⟩, ⟨2025, 7, 31⟩⟩, totalHeadlines := 0,
               error := some ((some "").getD unknownErrorMsg) } := by
  have h := analyzeMonthly_error_isolation (getTime ⟨2025, 10, 11⟩) 2 exampleFetch
    defaultBudget exampleRanges
  exact ⟨⟨rfl, exampleJulyAllowed, rfl⟩, h.1,
    (h.2 0 ⟨⟨2025, 7, 1⟩, ⟨2025, 7, 31⟩⟩ rfl).2.1 exampleJulyAllowed (some "") rfl⟩

/-- Counterexample for C7 as stated: scoreAttention (and scoreNovelty) on
empty input return 0, which is not the neutral midpoint 5. -/
theorem scorers_empty_input_counterexample :
    scoreAttention [] = 0 ∧ scoreNovelty [] [] = 0 ∧ (0 : ℚ) ≠ 5 := by
  refine ⟨rfl, ?_, by norm_num⟩
  simp [scoreNovelty, normalizeRange, clamp, round2, ratFloor_eq]
  norm_num

end HeadlineVibes
